import Mathlib

/-!
Shallow embedding of `src/pdf/select_pages.py` (functions `parse_pages`,
`build_default_output_path`, and the selection logic of `extract_pages`).

Python strings are modelled as Lean `String`/`List Char` (the inputs of
interest are ASCII); Python `int` is `Int`; a Python function that can
`raise ValueError(...)` is modelled as `Except PageError _`, with one
`PageError` constructor per distinct `raise` message in the source.
-/

namespace SelectPages

/-- One constructor per `raise ValueError(...)` site/message in
`src/pdf/select_pages.py`.  Payloads record exactly the data interpolated
into the corresponding Python message. -/
inductive PageError where
  /-- "pages expression cannot be empty" (line 25) -/
  | emptyExpr
  /-- "pages expression did not contain any pages" (line 31) -/
  | noParts
  /-- "Invalid range(...) expression: {part}" (line 39) -/
  | invalidRangeExpr (part : String)
  /-- models the uncaught `ValueError` that `int(s)` itself would raise
  (reachable in the source only for arguments like `"--5"` that pass the
  `lstrip('-').isdigit()` test, lines 40-42) -/
  | intParseFail (part : String)
  /-- "range step cannot be 0" (lines 44, 93) -/
  | stepZero
  /-- "Page numbers must be positive" (lines 48, 63, 73, 96, 109, 119, 134, 148) -/
  | nonPositive
  /-- "Page {page} out of bounds (total pages: {total})" (lines 51, 66, 76, 99, 112, 122, 139, 151) -/
  | outOfBounds (page total : Int)
  /-- "range step does not progress from {start} to {stop}" (lines 58, 104) -/
  | nonProgressing (start stop : Int)
  /-- "Invalid range: {part}" (line 130) -/
  | invalidRange (part : String)
  /-- "Invalid range (start > end): {part}" (line 136) -/
  | startGtEnd (part : String)
  /-- "Invalid page number: {part}" (line 145) -/
  | invalidPageNumber (part : String)
  /-- "No valid pages selected" (line 178, in `extract_pages`) -/
  | noValidPages
  deriving Repr, DecidableEq

deriving instance DecidableEq for Except

/-! ## Character and string utilities mirroring the Python primitives -/

/-- The characters matched by the regex class `[\s,]` in
`re.split(r"[\s,]+", pages_expr)` (line 29), restricted to ASCII. -/
def isSepChar (c : Char) : Bool :=
  c = ',' || c = ' ' || c = '\t' || c = '\n' || c = '\r' || c = '\x0b' || c = '\x0c'

/-- ASCII whitespace, the `\s` class of the stepped-range regex (line 84)
and the set stripped by `str.strip()`. -/
def isWsChar (c : Char) : Bool :=
  c = ' ' || c = '\t' || c = '\n' || c = '\r' || c = '\x0b' || c = '\x0c'

/-- Split a character list at every character satisfying `p`, keeping empty
fragments (the behaviour of `re.split` on a single-character class; runs of
separators produce empty fragments which the caller filters away). -/
def splitPred (p : Char → Bool) : List Char → List (List Char)
  | [] => [[]]
  | c :: rest =>
    match splitPred p rest with
    | [] => [[c]]
    | q :: qs => if p c then [] :: q :: qs else (c :: q) :: qs

/-- Python `str.strip()` (ASCII whitespace at both ends). -/
def stripWs (cs : List Char) : List Char :=
  ((cs.dropWhile isWsChar).reverse.dropWhile isWsChar).reverse

/-- Value of a (checked) decimal digit string, `int(s)` for unsigned `s`. -/
def digitsToNat (cs : List Char) : Nat :=
  cs.foldl (fun a c => 10 * a + (c.toNat - 48)) 0

/-- Python `s.isdigit()` for ASCII `s`: non-empty and all decimal digits. -/
def isDigits (cs : List Char) : Bool :=
  !cs.isEmpty && cs.all Char.isDigit

/-- Python `int(s)` on a string that passed `s.lstrip('-').isdigit()`:
an optional single leading minus followed by digits.  Strings with two or
more leading minuses pass that test but make `int` raise; they yield `none`
here (the caller turns this into `PageError.intParseFail`). -/
def pyInt (cs : List Char) : Option Int :=
  match cs with
  | '-' :: ds => if isDigits ds then some (-(digitsToNat ds : Int)) else none
  | ds => if isDigits ds then some ((digitsToNat ds : Int)) else none

/-- Longest digit run at the head of the list, plus the remainder. -/
def takeDigits : List Char → List Char × List Char
  | [] => ([], [])
  | c :: cs =>
    if c.isDigit then
      match takeDigits cs with
      | (d, r) => (c :: d, r)
    else ([], c :: cs)

/-- Read a regex group `-?\d+` from the head of the list: an optional minus
sign followed by at least one digit (maximal munch, as the regexes in
lines 82/84 behave on their digit groups). -/
def readInt (cs : List Char) : Option (Int × List Char) :=
  match cs with
  | '-' :: rest =>
    match takeDigits rest with
    | ([], _) => none
    | (ds, r) => some (-(digitsToNat ds : Int), r)
  | _ =>
    match takeDigits cs with
    | ([], _) => none
    | (ds, r) => some ((digitsToNat ds : Int), r)

/-- Drop leading ASCII whitespace (a `\s*` in the regex of line 84). -/
def skipWs : List Char → List Char
  | [] => []
  | c :: cs => if isWsChar c then skipWs cs else c :: cs

/-- The regex of line 82,
`^(?P<start>-?\d+)[.]{2}(?P<end>-?\d+)[.]{2}(?P<step>-?\d+)$`,
as a deterministic matcher returning the three captured integers. -/
def matchDotDot (cs : List Char) : Option (Int × Int × Int) :=
  match readInt cs with
  | none => none
  | some (a, r1) =>
    match r1 with
    | '.' :: '.' :: r2 =>
      match readInt r2 with
      | none => none
      | some (b, r3) =>
        match r3 with
        | '.' :: '.' :: r4 =>
          match readInt r4 with
          | none => none
          | some (s, r5) => if r5 = [] then some (a, b, s) else none
        | _ => none
    | _ => none

/-- The regex of line 84,
`^(?P<start>-?\d+)\s*-\s*(?P<end>-?\d+)\s*:\s*(?P<step>-?\d+)$`,
as a deterministic matcher returning the three captured integers. -/
def matchColon (cs : List Char) : Option (Int × Int × Int) :=
  match readInt cs with
  | none => none
  | some (a, r1) =>
    match skipWs r1 with
    | '-' :: r2 =>
      match readInt (skipWs r2) with
      | none => none
      | some (b, r3) =>
        match skipWs r3 with
        | ':' :: r4 =>
          match readInt (skipWs r4) with
          | none => none
          | some (s, r5) => if r5 = [] then some (a, b, s) else none
        | _ => none
    | _ => none

/-! ## The per-token loops and branches of `parse_pages` -/

/-- Recursion core of the ascending iteration of lines 60-69 (and its
verbatim copy, lines 106-115): `while current <= end`, checking positivity
and bounds for every visited value and appending `current - 1`.  The
`while` loop is total only because every caller passes a positive step;
here structural recursion on `fuel` makes that explicit, and `loopPos`
supplies fuel that is never exhausted when `0 < step` (the fuel-out value
is irrelevant and never reached from the source's call sites). -/
def loopPosGo (fuel : Nat) (c stop s t : Int) : Except PageError (List Int) :=
  if c ≤ stop then
    if c ≤ 0 then .error .nonPositive
    else if t < c then .error (.outOfBounds c t)
    else
      match fuel with
      | 0 => .error .stepZero
      | fuel' + 1 =>
        match loopPosGo fuel' (c + s) stop s t with
        | .error e => .error e
        | .ok rest => .ok ((c - 1) :: rest)
  else .ok []

/-- The ascending `while current <= end` loop (lines 60-69 / 106-115).
With `0 < step` the fuel `(stop + 1 - current).toNat` bounds the number of
iterations, so this equals the source's unbounded loop. -/
def loopPos (current stop step total : Int) : Except PageError (List Int) :=
  loopPosGo (stop + 1 - current).toNat current stop step total

/-- Recursion core of the descending iteration of lines 71-79 (and its
verbatim copy, lines 117-125): `while current >= end`; mirror image of
`loopPosGo`. -/
def loopNegGo (fuel : Nat) (c stop s t : Int) : Except PageError (List Int) :=
  if stop ≤ c then
    if c ≤ 0 then .error .nonPositive
    else if t < c then .error (.outOfBounds c t)
    else
      match fuel with
      | 0 => .error .stepZero
      | fuel' + 1 =>
        match loopNegGo fuel' (c + s) stop s t with
        | .error e => .error e
        | .ok rest => .ok ((c - 1) :: rest)
  else .ok []

/-- The descending `while current >= end` loop (lines 71-79 / 117-125).
With `step < 0` the fuel `(current + 1 - stop).toNat` bounds the number of
iterations, so this equals the source's unbounded loop. -/
def loopNeg (current stop step total : Int) : Except PageError (List Int) :=
  loopNegGo (current + 1 - stop).toNat current stop step total

/-- Lines 43-79 and their verbatim duplicate 92-125: expansion of a
classified stepped range `start..stop` by `step` against `total` pages.
Order of checks follows the source: zero step, degenerate `start == end`,
floor-division progression test, then the directed loop. -/
def steppedSelect (start stop step total : Int) : Except PageError (List Int) :=
  if step = 0 then .error .stepZero
  else if start = stop then
    if start ≤ 0 then .error .nonPositive
    else if total < start then .error (.outOfBounds start total)
    else .ok [start - 1]
  else if Int.fdiv (stop - start) step < 0 then .error (.nonProgressing start stop)
  else if 0 < step then loopPos start stop step total
  else loopNeg start stop step total

/-- `part.lower().startswith('range(')` (line 35), ASCII lowering. -/
def lowerStartsWithRange (part : String) : Bool :=
  (part.data.map Char.toLower).take 6 = ['r', 'a', 'n', 'g', 'e', '(']

/-- `part.endswith(')')` (line 35). -/
def endsWithParen (part : String) : Bool :=
  part.data.getLast? = some ')'

/-- Lines 36-80: the `range(start,end,step)` branch.  `part[6:-1]` is split
on commas, fragments are stripped and empties dropped, the count/integer
check of line 38 is applied, and the three integers are fed to the stepped
expansion. -/
def funcBranch (part : String) (total : Int) : Except PageError (List Int) :=
  let inner := (part.data.drop 6).dropLast
  let nums := ((splitPred (fun c => c = ',') inner).map stripWs).filter (fun s => s ≠ [])
  match nums with
  | [n0, n1, n2] =>
    if [n0, n1, n2].all (fun s => isDigits (s.dropWhile (fun c => c = '-'))) then
      match pyInt n0, pyInt n1, pyInt n2 with
      | some a, some b, some s => steppedSelect a b s total
      | _, _, _ => .error (.intParseFail part)
    else .error (.invalidRangeExpr part)
  | _ => .error (.invalidRangeExpr part)

/-- `list(range(a, b))` for integers: `a, a+1, ..., b-1`. -/
def intRange (a b : Int) : List Int :=
  (List.range (b - a).toNat).map (fun (i : Nat) => a + (i : Int))

/-- Lines 127-142: the plain inclusive range branch, entered when `'-' in
part`; `part.split('-', 1)` splits at the first dash. -/
def plainRange (part : String) (total : Int) : Except PageError (List Int) :=
  let cs := part.data
  let i := cs.findIdx (fun c => c = '-')
  let startStr := cs.take i
  let stopStr := cs.drop (i + 1)
  if isDigits startStr && isDigits stopStr then
    let a : Int := digitsToNat startStr
    let b : Int := digitsToNat stopStr
    if a ≤ 0 ∨ b ≤ 0 then .error .nonPositive
    else if b < a then .error (.startGtEnd part)
    else if total < b then .error (.outOfBounds b total)
    else .ok ((intRange a (b + 1)).map (fun p => p - 1))
  else .error (.invalidRange part)

/-- Lines 143-153: the single page number branch. -/
def singlePage (part : String) (total : Int) : Except PageError (List Int) :=
  if isDigits part.data then
    let p : Int := digitsToNat part.data
    if p ≤ 0 then .error .nonPositive
    else if total < p then .error (.outOfBounds p total)
    else .ok [p - 1]
  else .error (.invalidPageNumber part)

/-- Lines 33-153: classification and expansion of one token, in the
source's probing order: function form, double-dot regex, colon regex,
plain range (`'-' in part`), single number.  (The `step_str is None` check
of lines 89-90 is dead: a matched regex always captures a non-empty step.) -/
def parse_part (part : String) (total : Int) : Except PageError (List Int) :=
  if lowerStartsWithRange part && endsWithParen part then funcBranch part total
  else
    match matchDotDot part.data with
    | some (a, b, s) => steppedSelect a b s total
    | none =>
      match matchColon part.data with
      | some (a, b, s) => steppedSelect a b s total
      | none =>
        if part.data.contains '-' then plainRange part total
        else singlePage part total

/-- The `for part in parts` loop of lines 33-153: expand each token in
order, appending the results; the first error aborts the run. -/
def expandAll (parts : List String) (total : Int) : Except PageError (List Int) :=
  match parts with
  | [] => .ok []
  | p :: rest =>
    match parse_part p total with
    | .error e => .error e
    | .ok l =>
      match expandAll rest total with
      | .error e => .error e
      | .ok ls => .ok (l ++ ls)

/-- Line 29: `[p.strip() for p in re.split(r"[\s,]+", pages_expr) if p.strip()]`.
Splitting on every separator character and dropping empty fragments equals
splitting on separator runs; the inner `strip` is the identity because
fragments contain no whitespace. -/
def tokenize (s : String) : List String :=
  ((splitPred isSepChar s.data).map String.mk).filter (fun t => t ≠ "")

/-- Lines 17-155: `parse_pages`. -/
def parse_pages (pages_expr : String) (total_pages : Int) : Except PageError (List Int) :=
  if pages_expr = "" then .error .emptyExpr
  else
    let parts := tokenize pages_expr
    if parts = [] then .error .noParts
    else expandAll parts total_pages

/-- Lines 176-178 of `extract_pages`: the selection stage, including the
`if not page_indices` guard raising "No valid pages selected". -/
def extract_select (pages_expr : String) (total_pages : Int) : Except PageError (List Int) :=
  match parse_pages pages_expr total_pages with
  | .error e => .error e
  | .ok l => if l = [] then .error .noValidPages else .ok l

/-! ## `build_default_output_path` (lines 158-169) -/

/-- Python `str.rfind(c)`: index of the last occurrence, `-1` if absent. -/
def rfindIdx : List Char → Char → Int
  | [], _ => -1
  | x :: xs, c =>
    let r := rfindIdx xs c
    if 0 ≤ r then r + 1 else if x = c then 0 else -1

/-- `os.path.splitext` for POSIX paths (CPython `genericpath._splitext`
with `sep='/'`, no `altsep`, `extsep='.'`): split at the last dot after the
last slash, unless every character between them is a dot (leading dots of
the basename never start an extension). -/
def splitext (p : String) : String × String :=
  let cs := p.data
  let sepIdx := rfindIdx cs '/'
  let dotIdx := rfindIdx cs '.'
  if sepIdx < dotIdx then
    let name := (cs.take dotIdx.toNat).drop (sepIdx + 1).toNat
    if name.any (fun ch => ch ≠ '.') then
      (String.mk (cs.take dotIdx.toNat), String.mk (cs.drop dotIdx.toNat))
    else (p, "")
  else (p, "")

/-- The `while True` loop of lines 164-169, probing
`f"{base}.selected-{counter}{ext}"` against the filesystem oracle `ex`.
The loop is unbounded in the source; it is given explicit fuel here, with
`none` meaning the fuel ran out before a free name was found. -/
def buildLoop (ex : String → Bool) (base ext : String) (counter fuel : Nat) : Option String :=
  match fuel with
  | 0 => none
  | fuel + 1 =>
    let candidate := base ++ ".selected-" ++ toString counter ++ ext
    if ex candidate then buildLoop ex base ext (counter + 1) fuel
    else some candidate

/-- Lines 158-169: `build_default_output_path`, with `os.path.exists`
modelled by the oracle `ex`. -/
def build_default_output_path (ex : String → Bool) (input_path : String) (fuel : Nat) :
    Option String :=
  let base := (splitext input_path).1
  let ext0 := (splitext input_path).2
  let ext := if ext0 = "" then ".pdf" else ext0
  let c0 := base ++ ".selected" ++ ext
  if ex c0 then buildLoop ex base ext 1 fuel
  else some c0

/-- The k-th candidate name the resolver tries for `input_path`:
`base.selected.ext` for `k = 0`, then `base.selected-k.ext`. -/
def outCandidate (input_path : String) (k : Nat) : String :=
  let base := (splitext input_path).1
  let ext0 := (splitext input_path).2
  let ext := if ext0 = "" then ".pdf" else ext0
  if k = 0 then base ++ ".selected" ++ ext
  else base ++ ".selected-" ++ toString k ++ ext

/-! ## Helper lemmas -/

/-- Floor division of a positive integer by a negative one is negative
(the complement of `Int.fdiv_neg'`, needed for the progression check with
a negative step). -/
theorem fdiv_neg_of_pos_of_neg (a b : Int) (ha : 0 < a) (hb : b < 0) :
    Int.fdiv a b < 0 := by
  obtain ⟨m, rfl⟩ : ∃ m : Nat, a = Int.ofNat (m + 1) := by
    refine ⟨(a - 1).toNat, ?_⟩
    rw [Int.ofNat_eq_coe]
    omega
  obtain ⟨n, rfl⟩ : ∃ n : Nat, b = Int.negSucc n := by
    refine ⟨(-b - 1).toNat, ?_⟩
    rw [Int.negSucc_eq]
    omega
  have : Int.fdiv (Int.ofNat (m + 1)) (Int.negSucc n) = Int.negSucc (m / (n + 1)) := rfl
  rw [this]
  exact Int.negSucc_lt_zero _

theorem loopPosGo_mem : ∀ (fuel : Nat) (c stop s t : Int) (l : List Int),
    loopPosGo fuel c stop s t = .ok l → ∀ i ∈ l, 0 ≤ i ∧ i < t := by
  intro fuel
  induction fuel with
  | zero =>
    intro c stop s t l h
    unfold loopPosGo at h
    split at h
    · split at h
      · cases h
      split at h
      · cases h
      cases h
    · cases h
      intro i hi
      cases hi
  | succ f ih =>
    intro c stop s t l h
    unfold loopPosGo at h
    split at h
    · split at h
      · cases h
      split at h
      · cases h
      dsimp only at h
      cases hr : loopPosGo f (c + s) stop s t with
      | error e => rw [hr] at h; cases h
      | ok rest =>
        rw [hr] at h
        cases h
        intro i hi
        rcases List.mem_cons.mp hi with hi | hi
        · subst hi; omega
        · exact ih (c + s) stop s t rest hr i hi
    · cases h
      intro i hi
      cases hi

theorem loopNegGo_mem : ∀ (fuel : Nat) (c stop s t : Int) (l : List Int),
    loopNegGo fuel c stop s t = .ok l → ∀ i ∈ l, 0 ≤ i ∧ i < t := by
  intro fuel
  induction fuel with
  | zero =>
    intro c stop s t l h
    unfold loopNegGo at h
    split at h
    · split at h
      · cases h
      split at h
      · cases h
      cases h
    · cases h
      intro i hi
      cases hi
  | succ f ih =>
    intro c stop s t l h
    unfold loopNegGo at h
    split at h
    · split at h
      · cases h
      split at h
      · cases h
      dsimp only at h
      cases hr : loopNegGo f (c + s) stop s t with
      | error e => rw [hr] at h; cases h
      | ok rest =>
        rw [hr] at h
        cases h
        intro i hi
        rcases List.mem_cons.mp hi with hi | hi
        · subst hi; omega
        · exact ih (c + s) stop s t rest hr i hi
    · cases h
      intro i hi
      cases hi

theorem loopPos_mem (c stop s t : Int) (l : List Int)
    (h : loopPos c stop s t = .ok l) : ∀ i ∈ l, 0 ≤ i ∧ i < t :=
  loopPosGo_mem _ _ _ _ _ _ h

theorem loopNeg_mem (c stop s t : Int) (l : List Int)
    (h : loopNeg c stop s t = .ok l) : ∀ i ∈ l, 0 ≤ i ∧ i < t :=
  loopNegGo_mem _ _ _ _ _ _ h

/-- A positive-step loop entered with `current ≤ stop` never returns an
empty list: the first iteration either errors or contributes `current - 1`. -/
theorem loopPosGo_ok_ne_nil (fuel : Nat) (c stop s t : Int) (l : List Int)
    (hcs : c ≤ stop) (h : loopPosGo fuel c stop s t = .ok l) : l ≠ [] := by
  unfold loopPosGo at h
  rw [if_pos hcs] at h
  split at h
  · cases h
  split at h
  · cases h
  match fuel, h with
  | 0, h => cases h
  | f + 1, h =>
    dsimp only at h
    cases hr : loopPosGo f (c + s) stop s t with
    | error e => rw [hr] at h; cases h
    | ok rest => rw [hr] at h; cases h; simp

theorem loopNegGo_ok_ne_nil (fuel : Nat) (c stop s t : Int) (l : List Int)
    (hcs : stop ≤ c) (h : loopNegGo fuel c stop s t = .ok l) : l ≠ [] := by
  unfold loopNegGo at h
  rw [if_pos hcs] at h
  split at h
  · cases h
  split at h
  · cases h
  match fuel, h with
  | 0, h => cases h
  | f + 1, h =>
    dsimp only at h
    cases hr : loopNegGo f (c + s) stop s t with
    | error e => rw [hr] at h; cases h
    | ok rest => rw [hr] at h; cases h; simp

theorem loopPos_ok_ne_nil (c stop s t : Int) (l : List Int) (hcs : c ≤ stop)
    (h : loopPos c stop s t = .ok l) : l ≠ [] :=
  loopPosGo_ok_ne_nil _ _ _ _ _ _ hcs h

theorem loopNeg_ok_ne_nil (c stop s t : Int) (l : List Int) (hcs : stop ≤ c)
    (h : loopNeg c stop s t = .ok l) : l ≠ [] :=
  loopNegGo_ok_ne_nil _ _ _ _ _ _ hcs h

theorem loopPosGo_firstOOB : ∀ (i : Nat) (fuel : Nat) (c stop s t : Int), 0 < s → 0 ≤ t →
    i ≤ fuel →
    (∀ j : Nat, j < i → 0 < c + (j : Int) * s ∧ c + (j : Int) * s ≤ t) →
    t < c + (i : Int) * s → c + (i : Int) * s ≤ stop →
    loopPosGo fuel c stop s t = .error (.outOfBounds (c + (i : Int) * s) t) := by
  intro i
  induction i with
  | zero =>
    intro fuel c stop s t hs ht hif hall hbad hle
    simp only [Nat.cast_zero, zero_mul, add_zero] at hbad hle ⊢
    unfold loopPosGo
    rw [if_pos hle, if_neg (by omega), if_pos hbad]
  | succ k ih =>
    intro fuel c stop s t hs ht hif hall hbad hle
    have h0 := hall 0 (Nat.succ_pos k)
    simp only [Nat.cast_zero, zero_mul, add_zero] at h0
    have hpos : 0 < ((k : Int) + 1) * s := by positivity
    have hcast : ((k + 1 : Nat) : Int) = (k : Int) + 1 := by push_cast; ring
    have hcs : c ≤ stop := by
      rw [hcast] at hle
      omega
    have hv : c + s + (k : Int) * s = c + ((k + 1 : Nat) : Int) * s := by
      push_cast; ring
    match fuel, hif with
    | f + 1, hif =>
      have hrec : loopPosGo f (c + s) stop s t =
          .error (.outOfBounds (c + s + (k : Int) * s) t) := by
        refine ih f (c + s) stop s t hs ht (by omega) ?_ ?_ ?_
        · intro j hj
          have hj1 := hall (j + 1) (by omega)
          have : ((j + 1 : Nat) : Int) = (j : Int) + 1 := by push_cast; ring
          rw [this] at hj1
          constructor
          · nlinarith [hj1.1]
          · nlinarith [hj1.2]
        · rw [hv]; exact hbad
        · rw [hv]; exact hle
      unfold loopPosGo
      rw [if_pos hcs, if_neg (by omega), if_neg (by omega)]
      dsimp only
      rw [hrec, hv]

/-- The positive-step loop raises on the first visited value that exceeds
the page count: if the first `i` visited values `c, c+s, ..., c+(i-1)s` are
all positive and within bounds, and the next visited value `c + i*s` is
still inside the loop condition but exceeds `total`, the loop stops with
exactly that out-of-bounds error. -/
theorem loopPos_firstOOB (i : Nat) (c stop s t : Int) (hs : 0 < s) (ht : 0 ≤ t)
    (hall : ∀ j : Nat, j < i → 0 < c + (j : Int) * s ∧ c + (j : Int) * s ≤ t)
    (hbad : t < c + (i : Int) * s) (hle : c + (i : Int) * s ≤ stop) :
    loopPos c stop s t = .error (.outOfBounds (c + (i : Int) * s) t) := by
  have his : (i : Int) ≤ (i : Int) * s := by nlinarith [Int.natCast_nonneg i]
  refine loopPosGo_firstOOB i _ c stop s t hs ht (by omega) hall hbad hle

/-- The descending loop bounds-checks its first visited value (`start`
itself) and raises naming it when it exceeds the page count. -/
theorem loopNeg_startOOB (c stop s t : Int) (h1 : stop ≤ c) (h2 : 0 < c)
    (h3 : t < c) : loopNeg c stop s t = .error (.outOfBounds c t) := by
  unfold loopNeg loopNegGo
  rw [if_pos h1, if_neg (by omega), if_pos h3]

theorem steppedSelect_mem (a b s t : Int) (l : List Int)
    (h : steppedSelect a b s t = .ok l) : ∀ i ∈ l, 0 ≤ i ∧ i < t := by
  unfold steppedSelect at h
  by_cases hz : s = 0
  · rw [if_pos hz] at h; cases h
  rw [if_neg hz] at h
  by_cases heq : a = b
  · rw [if_pos heq] at h
    by_cases ha0 : a ≤ 0
    · rw [if_pos ha0] at h; cases h
    rw [if_neg ha0] at h
    by_cases hat : t < a
    · rw [if_pos hat] at h; cases h
    rw [if_neg hat] at h
    cases h
    intro i hi
    simp only [List.mem_singleton] at hi
    subst hi
    omega
  rw [if_neg heq] at h
  by_cases hprog : Int.fdiv (b - a) s < 0
  · rw [if_pos hprog] at h; cases h
  rw [if_neg hprog] at h
  by_cases hs : 0 < s
  · rw [if_pos hs] at h
    exact loopPos_mem _ _ _ _ _ h
  · rw [if_neg hs] at h
    exact loopNeg_mem _ _ _ _ _ h

theorem steppedSelect_ok_ne_nil (a b s t : Int) (l : List Int)
    (h : steppedSelect a b s t = .ok l) : l ≠ [] := by
  unfold steppedSelect at h
  by_cases hz : s = 0
  · rw [if_pos hz] at h; cases h
  rw [if_neg hz] at h
  by_cases heq : a = b
  · rw [if_pos heq] at h
    by_cases ha0 : a ≤ 0
    · rw [if_pos ha0] at h; cases h
    rw [if_neg ha0] at h
    by_cases hat : t < a
    · rw [if_pos hat] at h; cases h
    rw [if_neg hat] at h
    cases h
    simp
  rw [if_neg heq] at h
  by_cases hprog : Int.fdiv (b - a) s < 0
  · rw [if_pos hprog] at h; cases h
  rw [if_neg hprog] at h
  by_cases hs : 0 < s
  · rw [if_pos hs] at h
    have hab : a ≤ b := by
      by_contra hib
      exact hprog (Int.fdiv_neg' (by omega) hs)
    exact loopPos_ok_ne_nil _ _ _ _ _ hab h
  · rw [if_neg hs] at h
    have hba : b ≤ a := by
      by_contra hib
      exact hprog (fdiv_neg_of_pos_of_neg _ _ (by omega) (by omega))
    exact loopNeg_ok_ne_nil _ _ _ _ _ hba h

theorem intRange_mem (a b i : Int) : i ∈ intRange a b ↔ a ≤ i ∧ i < b := by
  unfold intRange
  simp only [List.mem_map, List.mem_range]
  constructor
  · rintro ⟨j, hj, rfl⟩
    omega
  · rintro ⟨h1, h2⟩
    exact ⟨(i - a).toNat, by omega, by omega⟩

theorem intRange_ne_nil (a b : Int) (h : a < b) : intRange a b ≠ [] := by
  intro hnil
  have ha : a ∈ intRange a b := (intRange_mem a b a).mpr ⟨le_refl a, h⟩
  rw [hnil] at ha
  cases ha

theorem plainRange_mem (p : String) (t : Int) (l : List Int)
    (h : plainRange p t = .ok l) : ∀ i ∈ l, 0 ≤ i ∧ i < t := by
  unfold plainRange at h
  dsimp only at h
  split at h
  · split at h
    · cases h
    split at h
    · cases h
    split at h
    · cases h
    cases h
    intro i hi
    simp only [List.mem_map] at hi
    obtain ⟨q, hq, rfl⟩ := hi
    rw [intRange_mem] at hq
    omega
  · cases h

theorem plainRange_ok_ne_nil (p : String) (t : Int) (l : List Int)
    (h : plainRange p t = .ok l) : l ≠ [] := by
  unfold plainRange at h
  dsimp only at h
  split at h
  · split at h
    · cases h
    split at h
    · cases h
    split at h
    · cases h
    cases h
    intro hnil
    rw [List.map_eq_nil_iff] at hnil
    exact intRange_ne_nil _ _ (by omega) hnil
  · cases h

theorem singlePage_mem (p : String) (t : Int) (l : List Int)
    (h : singlePage p t = .ok l) : ∀ i ∈ l, 0 ≤ i ∧ i < t := by
  unfold singlePage at h
  dsimp only at h
  split at h
  · split at h
    · cases h
    split at h
    · cases h
    cases h
    intro i hi
    simp only [List.mem_singleton] at hi
    subst hi
    omega
  · cases h

theorem singlePage_ok_ne_nil (p : String) (t : Int) (l : List Int)
    (h : singlePage p t = .ok l) : l ≠ [] := by
  unfold singlePage at h
  dsimp only at h
  split at h
  · split at h
    · cases h
    split at h
    · cases h
    cases h
    simp
  · cases h

theorem funcBranch_mem (p : String) (t : Int) (l : List Int)
    (h : funcBranch p t = .ok l) : ∀ i ∈ l, 0 ≤ i ∧ i < t := by
  unfold funcBranch at h
  dsimp only at h
  split at h
  · split at h
    · split at h
      · exact steppedSelect_mem _ _ _ _ _ h
      · cases h
    · cases h
  · cases h

theorem funcBranch_ok_ne_nil (p : String) (t : Int) (l : List Int)
    (h : funcBranch p t = .ok l) : l ≠ [] := by
  unfold funcBranch at h
  dsimp only at h
  split at h
  · split at h
    · split at h
      · exact steppedSelect_ok_ne_nil _ _ _ _ _ h
      · cases h
    · cases h
  · cases h

theorem parse_part_mem (p : String) (t : Int) (l : List Int)
    (h : parse_part p t = .ok l) : ∀ i ∈ l, 0 ≤ i ∧ i < t := by
  unfold parse_part at h
  split at h
  · exact funcBranch_mem _ _ _ h
  · split at h
    · exact steppedSelect_mem _ _ _ _ _ h
    · split at h
      · exact steppedSelect_mem _ _ _ _ _ h
      · split at h
        · exact plainRange_mem _ _ _ h
        · exact singlePage_mem _ _ _ h

/-- Every token that expands successfully contributes at least one index. -/
theorem parse_part_ok_ne_nil (p : String) (t : Int) (l : List Int)
    (h : parse_part p t = .ok l) : l ≠ [] := by
  unfold parse_part at h
  split at h
  · exact funcBranch_ok_ne_nil _ _ _ h
  · split at h
    · exact steppedSelect_ok_ne_nil _ _ _ _ _ h
    · split at h
      · exact steppedSelect_ok_ne_nil _ _ _ _ _ h
      · split at h
        · exact plainRange_ok_ne_nil _ _ _ h
        · exact singlePage_ok_ne_nil _ _ _ h

theorem expandAll_mem : ∀ (parts : List String) (t : Int) (L : List Int),
    expandAll parts t = .ok L → ∀ i ∈ L, 0 ≤ i ∧ i < t := by
  intro parts
  induction parts with
  | nil =>
    intro t L h
    unfold expandAll at h
    cases h
    intro i hi
    cases hi
  | cons p rest ih =>
    intro t L h
    unfold expandAll at h
    cases hp : parse_part p t with
    | error e => rw [hp] at h; cases h
    | ok l =>
      rw [hp] at h
      cases hr : expandAll rest t with
      | error e => rw [hr] at h; cases h
      | ok ls =>
        rw [hr] at h
        cases h
        intro i hi
        rcases List.mem_append.mp hi with hi | hi
        · exact parse_part_mem _ _ _ hp i hi
        · exact ih t ls hr i hi

theorem expandAll_ok_ne_nil (p : String) (rest : List String) (t : Int) (L : List Int)
    (h : expandAll (p :: rest) t = .ok L) : L ≠ [] := by
  unfold expandAll at h
  cases hp : parse_part p t with
  | error e => rw [hp] at h; cases h
  | ok l =>
    rw [hp] at h
    cases hr : expandAll rest t with
    | error e => rw [hr] at h; cases h
    | ok ls =>
      rw [hr] at h
      cases h
      have := parse_part_ok_ne_nil _ _ _ hp
      intro hnil
      rw [List.append_eq_nil] at hnil
      exact this hnil.1

/-- The expansion loop is exactly per-token expansion plus concatenation:
a successful run produces the verbatim join of the per-token results, in
token order. -/
theorem expandAll_concat : ∀ (parts : List String) (t : Int) (L : List Int),
    expandAll parts t = .ok L →
    ∃ ls : List (List Int),
      List.Forall₂ (fun p l => parse_part p t = .ok l) parts ls ∧ L = ls.flatten := by
  intro parts
  induction parts with
  | nil =>
    intro t L h
    unfold expandAll at h
    cases h
    exact ⟨[], List.Forall₂.nil, rfl⟩
  | cons p rest ih =>
    intro t L h
    unfold expandAll at h
    cases hp : parse_part p t with
    | error e => rw [hp] at h; cases h
    | ok l =>
      rw [hp] at h
      cases hr : expandAll rest t with
      | error e => rw [hr] at h; cases h
      | ok ls =>
        rw [hr] at h
        cases h
        obtain ⟨ls', hf, rfl⟩ := ih t ls hr
        exact ⟨l :: ls', List.Forall₂.cons hp hf, rfl⟩

/-- The collision loop returns the first free numbered candidate: if the
candidates numbered `c, c+1, ..., c+m-1` all exist and `c+m` is free, it
returns candidate `c+m` (given enough fuel). -/
theorem buildLoop_finds (ex : String → Bool) (base ext : String) :
    ∀ (m fuel c : Nat),
      (∀ j : Nat, j < m → ex (base ++ ".selected-" ++ toString (c + j) ++ ext) = true) →
      ex (base ++ ".selected-" ++ toString (c + m) ++ ext) = false →
      m < fuel →
      buildLoop ex base ext c fuel = some (base ++ ".selected-" ++ toString (c + m) ++ ext) := by
  intro m
  induction m with
  | zero =>
    intro fuel c hall hfree hlt
    match fuel, hlt with
    | f + 1, _ =>
      simp only [Nat.add_zero] at hfree ⊢
      unfold buildLoop
      dsimp only
      simp [hfree]
  | succ k ih =>
    intro fuel c hall hfree hlt
    match fuel, hlt with
    | f + 1, hlt =>
      have h0 : ex (base ++ ".selected-" ++ toString c ++ ext) = true := by
        have h' := hall 0 (Nat.succ_pos k)
        simpa using h'
      unfold buildLoop
      dsimp only
      rw [if_pos h0]
      have hck : c + 1 + k = c + (k + 1) := by omega
      have hrec := ih f (c + 1) (fun j hj => by
          have h' := hall (j + 1) (by omega)
          have hcj : c + 1 + j = c + (j + 1) := by omega
          rw [hcj]
          exact h') (by rw [hck]; exact hfree) (by omega)
      rw [hrec, hck]

/-! ## Claim theorems -/

/-- C1: `parse_pages` returns the left-to-right concatenation of each
token's expansion, preserving duplicates, never sorting or deduplicating;
in particular `parse_pages "5-7,3,10-8:-1" 10` is exactly the zero-based
list `[4,5,6,2,9,8,7]` and `parse_pages "1,1,1" 5` is `[0,0,0]`. -/
theorem claim_C1 :
    (∀ (e : String) (n : Int) (L : List Int), parse_pages e n = .ok L →
      ∃ ls : List (List Int),
        List.Forall₂ (fun p l => parse_part p n = .ok l) (tokenize e) ls ∧ L = ls.flatten)
    ∧ parse_pages "5-7,3,10-8:-1" 10 = .ok [4, 5, 6, 2, 9, 8, 7]
    ∧ parse_pages "1,1,1" 5 = .ok [0, 0, 0] := by
  refine ⟨?_, by decide, by decide⟩
  intro e n L h
  unfold parse_pages at h
  dsimp only at h
  split at h
  · cases h
  split at h
  · cases h
  exact expandAll_concat _ _ _ h

/-- C1 witness: the general conjunct instantiated at the claim's first
example. -/
theorem claim_C1_witness :
    ∃ ls : List (List Int),
      List.Forall₂ (fun p l => parse_part p (10 : Int) = .ok l) (tokenize "5-7,3,10-8:-1") ls
        ∧ ([4, 5, 6, 2, 9, 8, 7] : List Int) = ls.flatten :=
  claim_C1.1 "5-7,3,10-8:-1" 10 [4, 5, 6, 2, 9, 8, 7] (by decide)

/-- C2: whenever `parse_pages` succeeds, every returned index `i`
satisfies `0 ≤ i < total_pages`. -/
theorem claim_C2 : ∀ (e : String) (n : Int) (L : List Int),
    parse_pages e n = .ok L → ∀ i ∈ L, 0 ≤ i ∧ i < n := by
  intro e n L h
  unfold parse_pages at h
  dsimp only at h
  split at h
  · cases h
  split at h
  · cases h
  exact expandAll_mem _ _ _ h

/-- C2 witness: bounds for the element 4 of the expansion of
`"5-7,3,10-8:-1"` against 10 pages. -/
theorem claim_C2_witness : 0 ≤ (4 : Int) ∧ (4 : Int) < 10 :=
  claim_C2 "5-7,3,10-8:-1" 10 [4, 5, 6, 2, 9, 8, 7] (by decide) 4 (by decide)

/-- C3 (code bug): a zero step is rejected with the step-zero error for the
colon and double-dot forms, including `start == end`; but
`parse_pages "range(1,5,0)" 10` never reaches a stepped form at all — the
tokenizer splits the expression at its commas, so the run fails with the
invalid-page-number error on the fragment `"range(1"`, not with the
step-zero rejection the claim (and the program's own `--help` text, which
advertises `range(9,53,4)`) promises. -/
theorem claim_C3 :
    parse_pages "1-5:0" 10 = .error .stepZero
    ∧ parse_pages "1..5..0" 10 = .error .stepZero
    ∧ parse_pages "5-5:0" 10 = .error .stepZero
    ∧ tokenize "range(1,5,0)" = ["range(1", "5", "0)"]
    ∧ parse_pages "range(1,5,0)" 10 = .error (.invalidPageNumber "range(1") :=
  ⟨by decide, by decide, by decide, by decide, by decide⟩

/-- C4: a stepped-range token with `start == end` and a non-zero step
expands to the single zero-based index `start - 1` regardless of the step's
value or sign; in particular `parse_pages "9-9:4" 20 = [8]`. -/
theorem claim_C4 :
    (∀ (a s t : Int), s ≠ 0 → 0 < a → a ≤ t → steppedSelect a a s t = .ok [a - 1])
    ∧ parse_pages "9-9:4" 20 = .ok [8]
    ∧ parse_pages "9..9..4" 20 = .ok [8] := by
  refine ⟨?_, by decide, by decide⟩
  intro a s t hs ha hat
  unfold steppedSelect
  rw [if_neg hs, if_pos rfl, if_neg (by omega), if_neg (by omega)]

/-- C4 witness: the degenerate collapse at `start = stop = 9`, `step = 4`,
20 pages. -/
theorem claim_C4_witness : steppedSelect 9 9 4 20 = .ok [8] := by
  have h := claim_C4.1 9 4 20 (by decide) (by decide) (by decide)
  norm_num at h
  exact h

/-- C5: the stepped iteration bounds-checks every visited value and raises
the out-of-bounds error naming the first visited value that exceeds the
page count (for the descending loop that can only be the start value); in
particular `parse_pages "9-53:4" 50` fails naming page 53 although the
earlier visited values 9, 13, ..., 49 are in bounds. -/
theorem claim_C5 :
    (∀ (i : Nat) (c stop s t : Int), 0 < s → 0 ≤ t →
      (∀ j : Nat, j < i → 0 < c + (j : Int) * s ∧ c + (j : Int) * s ≤ t) →
      t < c + (i : Int) * s → c + (i : Int) * s ≤ stop →
      loopPos c stop s t = .error (.outOfBounds (c + (i : Int) * s) t))
    ∧ (∀ (c stop s t : Int), s < 0 → stop ≤ c → 0 < c → t < c →
      loopNeg c stop s t = .error (.outOfBounds c t))
    ∧ parse_pages "9-53:4" 50 = .error (.outOfBounds 53 50) :=
  ⟨fun i c stop s t hs ht hall hbad hle => loopPos_firstOOB i c stop s t hs ht hall hbad hle,
   fun c stop s t _ h1 h2 h3 => loopNeg_startOOB c stop s t h1 h2 h3,
   by decide⟩

/-- C5 witness: the ascending-loop conjunct at `9-53:4` against 50 pages,
where the twelfth visited value 53 is the first out of bounds. -/
theorem claim_C5_witness : loopPos 9 53 4 50 = .error (.outOfBounds 53 50) := by
  have h := claim_C5.1 11 9 53 4 50 (by decide) (by decide) (by decide) (by decide) (by decide)
  norm_num at h
  exact h

/-- C6: malformed `range(...)` contents are rejected: the claim's example
`"range(1,,5,2)"` is split by the tokenizer and fails on `"range(1"`; a
comma-free function-form token with the wrong field count fails with the
invalid-range-expression error; and at the classifier level a non-integer
third field is likewise rejected. -/
theorem claim_C6 : ∀ n : Int,
    parse_pages "range(1,,5,2)" n = .error (.invalidPageNumber "range(1")
    ∧ parse_pages "range(12)" n = .error (.invalidRangeExpr "range(12)")
    ∧ parse_pages "range(x)" n = .error (.invalidRangeExpr "range(x)")
    ∧ parse_part "range(1,2,x)" n = .error (.invalidRangeExpr "range(1,2,x)") :=
  fun _ => ⟨rfl, rfl, rfl, rfl⟩

/-- C7 counterexample: with whitespace around the separators the colon
stepped form does NOT parse like the compact form — the tokenizer splits
on whitespace first, so the two expressions give different results. -/
theorem claim_C7_counterexample :
    parse_pages "9 - 53 : 4" 60 ≠ parse_pages "9-53:4" 60 := by decide

/-- C7 (amended): the colon-form regex itself tolerates whitespace around
`-` and `:` (the matcher accepts the spaced token), but `parse_pages`
tokenizes on whitespace before matching, so a spaced expression becomes
five tokens and fails on the bare token `"-"`, while the compact form
expands normally. -/
theorem claim_C7 :
    matchColon "9 - 53 : 4".data = some (9, 53, 4)
    ∧ tokenize "9 - 53 : 4" = ["9", "-", "53", ":", "4"]
    ∧ parse_pages "9 - 53 : 4" 60 = .error (.invalidRange "-")
    ∧ parse_pages "9-53:4" 60 = .ok [8, 12, 16, 20, 24, 28, 32, 36, 40, 44, 48, 52] :=
  ⟨by decide, by decide, by decide, by decide⟩

/-- C8: the output-path resolver returns the first candidate of the
sequence `base.selected.ext`, `base.selected-1.ext`, `base.selected-2.ext`,
... that does not exist; with `doc.selected.pdf` and `doc.selected-1.pdf`
both present, resolving for `doc.pdf` yields `doc.selected-2.pdf`. -/
theorem claim_C8 :
    (∀ (ex : String → Bool) (input : String) (k fuel : Nat),
      (∀ j : Nat, j < k → ex (outCandidate input j) = true) →
      ex (outCandidate input k) = false → k ≤ fuel →
      build_default_output_path ex input fuel = some (outCandidate input k))
    ∧ build_default_output_path
        (fun p => p = "doc.selected.pdf" || p = "doc.selected-1.pdf") "doc.pdf" 10
        = some "doc.selected-2.pdf" := by
  refine ⟨?_, by decide⟩
  intro ex input k fuel hall hfree hkf
  unfold build_default_output_path
  dsimp only
  cases k with
  | zero =>
    unfold outCandidate at hfree ⊢
    dsimp only at hfree ⊢
    rw [if_pos rfl] at hfree
    simp [hfree]
  | succ q =>
    have h0 : ex (outCandidate input 0) = true := hall 0 (Nat.succ_pos q)
    unfold outCandidate at h0
    dsimp only at h0
    rw [if_pos rfl] at h0
    rw [if_pos h0]
    unfold outCandidate
    dsimp only
    rw [if_neg (by omega : ¬ q + 1 = 0)]
    have h1q : 1 + q = q + 1 := by omega
    have hrec := buildLoop_finds ex (splitext input).1
        (if (splitext input).2 = "" then ".pdf" else (splitext input).2) q fuel 1
        (fun j hj => by
          have h' := hall (j + 1) (by omega)
          unfold outCandidate at h'
          dsimp only at h'
          rw [if_neg (by omega : ¬ j + 1 = 0)] at h'
          have h1j : 1 + j = j + 1 := by omega
          rw [h1j]
          exact h')
        (by
          have h1qq : 1 + q = q + 1 := by omega
          rw [h1qq]
          unfold outCandidate at hfree
          dsimp only at hfree
          rw [if_neg (by omega : ¬ q + 1 = 0)] at hfree
          exact hfree)
        (by omega)
    rw [hrec, h1q]

/-- C8 witness: the general conjunct at a trivial oracle under which the
very first candidate is free. -/
theorem claim_C8_witness :
    build_default_output_path (fun _ => false) "in.pdf" 5 = some (outCandidate "in.pdf" 0) :=
  claim_C8.1 (fun _ => false) "in.pdf" 0 5 (fun _ hj => absurd hj (by omega)) rfl (by omega)

/-- C9: a successful `parse_pages` run never returns an empty selection
(the tokenizer rejects empty token sequences and every token contributes
at least one index), so the empty-selection branch of `extract_pages` is
unreachable: its selection stage equals `parse_pages` itself. -/
theorem claim_C9 :
    (∀ (e : String) (n : Int) (L : List Int), parse_pages e n = .ok L → L ≠ [])
    ∧ (∀ (p : String) (n : Int) (l : List Int), parse_part p n = .ok l → l ≠ [])
    ∧ (∀ (e : String) (n : Int), extract_select e n = parse_pages e n) := by
  have hmain : ∀ (e : String) (n : Int) (L : List Int), parse_pages e n = .ok L → L ≠ [] := by
    intro e n L h
    unfold parse_pages at h
    dsimp only at h
    split at h
    · cases h
    split at h
    · cases h
    rename_i hne
    cases htok : tokenize e with
    | nil => exact absurd htok hne
    | cons p rest =>
      rw [htok] at h
      exact expandAll_ok_ne_nil _ _ _ _ h
  refine ⟨hmain, fun p n l h => parse_part_ok_ne_nil p n l h, ?_⟩
  intro e n
  unfold extract_select
  cases hp : parse_pages e n with
  | error e' => rfl
  | ok L =>
    dsimp only
    rw [if_neg (hmain e n L hp)]

/-- C9 witness: the duplicates example succeeds non-emptily and the
extraction selection stage agrees with `parse_pages` on it. -/
theorem claim_C9_witness :
    ([0, 0, 0] : List Int) ≠ [] ∧ extract_select "1,1,1" 5 = parse_pages "1,1,1" 5 :=
  ⟨claim_C9.1 "1,1,1" 5 [0, 0, 0] (by decide), claim_C9.2.2 "1,1,1" 5⟩

/-- C10 counterexample: `parse_pages "RANGE(1,5,2)" 10` and
`parse_pages "range(1,5,2)" 10` are not equal — the errors raised name the
original token text, which differs in case. -/
theorem claim_C10_counterexample :
    parse_pages "RANGE(1,5,2)" 10 ≠ parse_pages "range(1,5,2)" 10 := by decide

/-- C10 (amended): the function-form keyword test does lowercase the token
(the classifier treats `RANGE(...` like `range(...`), but the claimed
equality fails because these expressions are split at their commas by the
tokenizer and the resulting errors embed the original fragment verbatim:
both runs fail with the invalid-page-number error, naming `"RANGE(1"` and
`"range(1"` respectively. -/
theorem claim_C10 : ∀ n : Int,
    parse_pages "RANGE(1,5,2)" n = .error (.invalidPageNumber "RANGE(1")
    ∧ parse_pages "range(1,5,2)" n = .error (.invalidPageNumber "range(1")
    ∧ lowerStartsWithRange "RANGE(1,5,2)" = lowerStartsWithRange "range(1,5,2)" :=
  fun _ => ⟨rfl, rfl, rfl⟩

end SelectPages

